import Mathlib

/-!
Verification of the booking-curve analytics pipeline
(`booking_analyzer01-01.py` and `booking_analyzer01-02.py`).

The two scripts share a common core: normalize snapshot rows, compute the
per-listing maximum stock and drop listings below 30, derive per-snapshot
sold counts by differencing consecutive stocks within each
(listing, stay_date) group, aggregate to one KPI row per (listing,
stay_date), join temporal windows (last 30 days / before 120 days), and
select exemplar rows by sorting on RevPAR descending and taking the first
row per grouping key.

Modelling conventions:
* timestamps (`date`, `created_at`) are integers (days); `pd.Timedelta(days=n)`
  is the integer `n`;
* `stock` and derived `sold` are integers, `price` and all ratios are `ℚ`;
* `sort_values` is modelled as a stable sort (insertion sort);
* `groupby` on a plain-typed key produces its groups in ascending key
  order (pandas `sort=True` default) and only for observed keys; the
  categorical `price_tier` column produced by `qcut` is grouped with
  pandas' default `observed=False`, which emits one group per category —
  including categories with no rows, whose aggregate is an all-NaN row;
* `pd.to_datetime` runs with its default `errors='raise'` outside the
  `try`/`except` (which catches only `FileNotFoundError`), so an
  unparseable non-empty date value aborts the run; `normalize` returns
  `none` on that path and otherwise drops missing-valued rows (`dropna`);
* `(a / b).fillna(0)` is modelled by `divOr0`: the NaN case `0/0` becomes
  `0`; the case `b = 0, a ≠ 0` (which pandas maps to `inf`) is proved
  unreachable for every pipeline row (see the division-safety theorem).
-/

set_option linter.unusedVariables false
set_option maxRecDepth 100000

namespace BookingCurves

/-! ### Generic stable insertion sorts (model of `pandas.sort_values`) -/

/-- Stable ascending insertion by the key `g` (an earlier element precedes
later elements with an equal key). -/
def insAsc {α β : Type} [LinearOrder β] (g : α → β) (a : α) : List α → List α
  | [] => [a]
  | b :: l => if g a ≤ g b then a :: b :: l else b :: insAsc g a l

/-- Stable ascending insertion sort by the key `g`. -/
def sortAscBy {α β : Type} [LinearOrder β] (g : α → β) : List α → List α
  | [] => []
  | a :: l => insAsc g a (sortAscBy g l)

/-- Stable descending insertion by the key `f` (models `ascending=False`). -/
def insDesc {α β : Type} [LinearOrder β] (f : α → β) (a : α) : List α → List α
  | [] => [a]
  | b :: l => if f b ≤ f a then a :: b :: l else b :: insDesc f a l

/-- Stable descending insertion sort by the key `f`. -/
def sortDescBy {α β : Type} [LinearOrder β] (f : α → β) : List α → List α
  | [] => []
  | a :: l => insDesc f a (sortDescBy f l)

/-- Insertion with a boolean "less or equal" test (used for composite group
keys, where only determinism matters). -/
def insB {α : Type} (le : α → α → Bool) (a : α) : List α → List α
  | [] => [a]
  | b :: l => if le a b then a :: b :: l else b :: insB le a l

/-- Sort with a boolean "less or equal" test. -/
def sortB {α : Type} (le : α → α → Bool) : List α → List α
  | [] => []
  | a :: l => insB le a (sortB le l)

/-! ### The spec-side selection rule

The spec describes the exemplar for a grouping key as: among the candidate
rows (in their pre-sort order), the one with maximum key value, and, when
several candidates share the maximum, the earliest one.  `firstMaxBy`
writes exactly that scan. -/

/-- Keep the incumbent `b` only when its key is strictly larger than the
key of the earlier element `a`; otherwise the earlier element wins. -/
def pickBetter {α β : Type} [LinearOrder β] (f : α → β) (a : α) : Option α → Option α
  | none => some a
  | some b => if f a < f b then some b else some a

/-- Earliest element attaining the maximum of `f`, `none` on the empty
list.  This is the spec's wording of the selection rule ("the row with
maximum RevPAR; ties broken by original row order"). -/
def firstMaxBy {α β : Type} [LinearOrder β] (f : α → β) : List α → Option α
  | [] => none
  | a :: l => pickBetter f a (firstMaxBy f l)

/-! ### Data model

One CSV row: `hotel_id, plan_id, room_type_id, date, created_at, stock,
price`.  The triple of ids is the composite listing identity. -/

/-- Composite listing identity `(hotel_id, plan_id, room_type_id)`. -/
structure Listing where
  hotel_id : Nat
  plan_id : Nat
  room_type_id : Nat
deriving DecidableEq, Repr

/-- A clean snapshot row after normalization: `date` is the stay date and
`created_at` the observation timestamp, both in days. -/
structure Row where
  listing : Listing
  date : Int
  created_at : Int
  stock : Int
  price : Rat
deriving DecidableEq, Repr

/-- State of a date/time cell after `read_csv`: a parsed value, a missing
cell (`NaN`, which `to_datetime` turns into `NaT`), or a non-empty string
that fails to parse.  The two failure modes behave differently:
`pd.to_datetime` (lines 21-22 / 22-23) runs with its default
`errors='raise'` and **outside** the `try` block (which catches only
`FileNotFoundError`), so a malformed value raises an uncaught
`ValueError`, while a missing value flows on as `NaT` and is removed by
`dropna`. -/
inductive DateField where
  | val : Int → DateField
  | missing : DateField
  | malformed : DateField
deriving DecidableEq, Repr

/-- A raw CSV row before normalization: the date columns carry the
three-state parse result, the remaining columns may be missing (`none`
models `NaN`; `to_datetime` is applied only to the two date columns, so
only they have an abort path). -/
structure RawRow where
  hotel_id : Option Nat
  plan_id : Option Nat
  room_type_id : Option Nat
  date : DateField
  created_at : DateField
  stock : Option Int
  price : Option Rat
deriving DecidableEq, Repr

/-- A raw row parses to a clean row iff every field is present
(`df.dropna()` keeps exactly these rows). -/
def RawRow.toRow? (r : RawRow) : Option Row :=
  match r.hotel_id, r.plan_id, r.room_type_id, r.date, r.created_at, r.stock, r.price with
  | some h, some p, some rt, DateField.val d, DateField.val c, some s, some pr =>
      some ⟨⟨h, p, rt⟩, d, c, s, pr⟩
  | _, _, _, _, _, _, _ => none

/-- Whether a row makes `pd.to_datetime(df['date'])` /
`pd.to_datetime(df['created_at'])` raise: it holds an unparseable
non-empty date value. -/
def RawRow.aborts (r : RawRow) : Bool :=
  r.date == DateField.malformed || r.created_at == DateField.malformed

/-- Normalization (`pd.read_csv(..., parse_dates=...)`, the two
`pd.to_datetime` calls, then `df.dropna()`): if any row holds an
unparseable non-empty date value, `to_datetime` raises an uncaught
`ValueError` and the whole run aborts (`none`); otherwise rows with a
missing field in any column are silently dropped. -/
def normalize (l : List RawRow) : Option (List Row) :=
  if l.any RawRow.aborts then none
  else some (l.filterMap RawRow.toRow?)

/-! ### Stage 2: listing capacity and the `max_stock >= 30` filter -/

/-- Maximum of a list of integers (`Series.max` on a nonempty group; the
`[]` case is never hit by the pipeline, which only evaluates it on groups
containing at least one row). -/
def maxList : List Int → Int
  | [] => 0
  | [x] => x
  | x :: y :: t => max x (maxList (y :: t))

/-- `max_stock` of a listing: the maximum `stock` over all of the
listing's snapshot rows, across every stay date
(`df.groupby([ids])['stock'].max()`). -/
def maxStockL (rows : List Row) (l : Listing) : Int :=
  maxList ((rows.filter (fun r => r.listing == l)).map (fun r => r.stock))

/-- The capacity filter `df = df[df['max_stock'] >= 30]`, applied to the
full table after merging the per-listing maximum back on. -/
def filteredRows (rows : List Row) : List Row :=
  rows.filter (fun r => decide (30 ≤ maxStockL rows r.listing))

/-! ### Stage 3: sale derivation -/

/-- The grouping key of the sale-derivation stage:
`(hotel_id, plan_id, room_type_id, date)`. -/
def rowKey (r : Row) : Listing × Int := (r.listing, r.date)

/-- Lexicographic boolean order on group keys, mirroring the ascending
multi-column sort of `sort_values` / the sorted group keys of `groupby`. -/
def keyLe (a b : Listing × Int) : Bool :=
  a.1.hotel_id < b.1.hotel_id ||
    (a.1.hotel_id == b.1.hotel_id &&
      (a.1.plan_id < b.1.plan_id ||
        (a.1.plan_id == b.1.plan_id &&
          (a.1.room_type_id < b.1.room_type_id ||
            (a.1.room_type_id == b.1.room_type_id && a.2 ≤ b.2)))))

/-- Distinct group keys of a table in ascending key order (pandas
`groupby(..., sort=True)`). -/
def keysOf (rows : List Row) : List (Listing × Int) :=
  sortB keyLe ((rows.map rowKey).dedup)

/-- The rows of one (listing, stay_date) group in ascending `created_at`
order (the tail of the five-column ascending sort on line 31/32 of the
sources). -/
def groupSorted (rows : List Row) (k : Listing × Int) : List Row :=
  sortAscBy (fun r => r.created_at) (rows.filter (fun r => rowKey r == k))

/-- Pair every row of an ordered group with its `sold` value:
`sold = (stock_shift - stock).clip(lower=0).fillna(0)`, where
`stock_shift` is the previous row's stock and the first row of a group
(shift yields NaN) gets `sold = 0`. -/
def soldSeq : Option Int → List Row → List (Row × Int)
  | _, [] => []
  | none, r :: rs => (r, 0) :: soldSeq (some r.stock) rs
  | some prev, r :: rs => (r, max (prev - r.stock) 0) :: soldSeq (some r.stock) rs

/-- The sale events of one (listing, stay_date) group. -/
def groupSold (rows : List Row) (k : Listing × Int) : List (Row × Int) :=
  soldSeq none (groupSorted rows k)

/-- The whole table, sorted by (ids, date, created_at) and annotated with
the `sold` column: the concatenation of the ordered groups. -/
def catGroups (rows : List Row) : List (Listing × Int) → List (Row × Int)
  | [] => []
  | k :: ks => groupSold rows k ++ catGroups rows ks

/-- The sorted, `sold`-annotated table (`df` after lines 31-34). -/
def dfSold (rows : List Row) : List (Row × Int) :=
  catGroups rows (keysOf rows)

/-- `revenue = sold * price` for one annotated row. -/
def revenueOf (p : Row × Int) : Rat :=
  (p.2 : Rat) * p.1.price

/-! ### Stage 4: daily KPI aggregation -/

/-- `(a / b).fillna(0)`: rational division with the undefined case mapped
to zero.  The only NaN a float division can produce is `0/0`, which
`fillna(0)` turns into `0`; the branch `b = 0` is proved unreachable for
every ratio the pipeline builds (its denominators are `max_stock ≥ 30`
and `total_sold > 0`). -/
def divOr0 (a b : Rat) : Rat :=
  if b = 0 then 0 else a / b

/-- `total_sold` of a (listing, stay_date) group: the groupby sum of the
`sold` column over that key. -/
def totalSold (rows : List Row) (k : Listing × Int) : Int :=
  (((dfSold rows).filter (fun p => rowKey p.1 == k)).map (fun p => p.2)).sum

/-- `total_revenue` of a (listing, stay_date) group. -/
def totalRevenue (rows : List Row) (k : Listing × Int) : Rat :=
  (((dfSold rows).filter (fun p => rowKey p.1 == k)).map revenueOf).sum

/-- The late-booking join: filter the full annotated table by the per-row
window `created_at >= date - 30` (`cutoff_date_30` is recomputed from each
row's own stay date), group by key and sum `sold`; a key without
surviving rows yields the empty sum `0`, exactly what the left merge
followed by `fillna(0)` produces. -/
def soldLast30 (rows : List Row) (k : Listing × Int) : Int :=
  (((dfSold rows).filter
      (fun p => rowKey p.1 == k && decide (p.1.date - 30 ≤ p.1.created_at))).map
    (fun p => p.2)).sum

/-- The early-booking join of the first script: per-row window
`created_at < date - 120`. -/
def soldBefore120 (rows : List Row) (k : Listing × Int) : Int :=
  (((dfSold rows).filter
      (fun p => rowKey p.1 == k && decide (p.1.created_at < p.1.date - 120))).map
    (fun p => p.2)).sum

/-- One `daily_kpi` row.  The column `last_30_days_booking_ratio` of the
sources is called `last_30_booking_frac` here. -/
structure Kpi where
  listing : Listing
  date : Int
  total_revenue : Rat
  total_sold : Int
  max_stock : Int
  RevPAR : Rat
  last_30_booking_frac : Rat
deriving DecidableEq, Repr

/-- Build the `daily_kpi` row of one key.  `fRows` is the capacity-filtered
table the group columns are computed from; `max_stock` is the per-listing
maximum merged on before the filter (the groupby `first` of a column that
is constant on the group). -/
def mkKpi (rows fRows : List Row) (k : Listing × Int) : Kpi :=
  { listing := k.1
    date := k.2
    total_revenue := totalRevenue fRows k
    total_sold := totalSold fRows k
    max_stock := maxStockL rows k.1
    RevPAR := divOr0 (totalRevenue fRows k) ((maxStockL rows k.1 : Int) : Rat)
    last_30_booking_frac :=
      divOr0 ((soldLast30 fRows k : Int) : Rat) ((totalSold fRows k : Int) : Rat) }

/-- The `daily_kpi` table: one row per observed (listing, stay_date) key of
the capacity-filtered table, keys in ascending order, rows with
`total_sold == 0` dropped. -/
def dailyKpi (rows : List Row) : List Kpi :=
  (((keysOf (filteredRows rows)).map (mkKpi rows (filteredRows rows)))).filter
    (fun x => decide (0 < x.total_sold))

/-- `booking_rate_at_120_days` (first script only): early-booking join over
`max_stock`. -/
def bookingRate120 (rows : List Row) (k : Listing × Int) : Rat :=
  divOr0 ((soldBefore120 (filteredRows rows) k : Int) : Rat)
    ((maxStockL rows k.1 : Int) : Rat)

/-! ### Stage 5 (first script): global best per listing -/

/-- `last_minute_success_cases` / `last_minute_cases`: the KPI rows whose
late-booking share meets the threshold. -/
def lastMinuteCases (rows : List Row) (t : Rat) : List Kpi :=
  (dailyKpi rows).filter (fun k => decide (t ≤ k.last_30_booking_frac))

/-- `best_dates` of the first script, viewed per grouping key: sort the
qualifying rows by RevPAR descending and take the first row of the
listing's group (`sort_values('RevPAR', ascending=False).groupby([ids]).first()`). -/
def bestDateFor (rows : List Row) (t : Rat) (l : Listing) : Option Kpi :=
  (sortDescBy Kpi.RevPAR (lastMinuteCases rows t)).find? (fun k => k.listing == l)

/-! ### Peer-group script: price tiers via quantile binning -/

/-- `ADR = total_revenue / total_sold` (with the same `fillna(0)`
convention as the other ratios). -/
def adr (k : Kpi) : Rat :=
  divOr0 k.total_revenue ((k.total_sold : Int) : Rat)

/-- Linear-interpolation quantile of a sorted list, the method used by
`Series.quantile`/`median`/`qcut`: position `q * (n - 1)`, interpolating
between the neighbouring order statistics. -/
def quantileQ (s : List Rat) (q : Rat) : Rat :=
  if s.length = 0 then 0
  else if (Int.floor (q * ((s.length : Rat) - 1))).toNat + 1 < s.length then
    s.getD (Int.floor (q * ((s.length : Rat) - 1))).toNat 0 +
      (q * ((s.length : Rat) - 1) - ((Int.floor (q * ((s.length : Rat) - 1))).toNat : Rat)) *
        (s.getD ((Int.floor (q * ((s.length : Rat) - 1))).toNat + 1) 0 -
          s.getD (Int.floor (q * ((s.length : Rat) - 1))).toNat 0)
  else s.getD (s.length - 1) 0

/-- `Series.median`: the 1/2-quantile of the sorted values. -/
def medianQ (l : List Rat) : Rat :=
  quantileQ (sortAscBy id l) (1 / 2)

/-- `characteristic_price`: the median ADR of a listing across its
`daily_kpi` rows. -/
def charPrice (rows : List Row) (l : Listing) : Rat :=
  medianQ (((dailyKpi rows).filter (fun k => k.listing == l)).map adr)

/-- The `characteristic_price` column of `daily_kpi` (after the merge every
row carries its listing's value). -/
def cpCol (rows : List Row) : List Rat :=
  (dailyKpi rows).map (fun k => charPrice rows k.listing)

/-- The bin edges `pd.qcut` computes: the `i/n` quantiles of the column,
`i = 0..n`. -/
def qcutEdges (col : List Rat) (n : Nat) : List Rat :=
  (List.range (n + 1)).map
    (fun i => quantileQ (sortAscBy id col) ((Nat.cast i : Rat) / (Nat.cast n : Rat)))

/-- A price tier: one of the `n` quantile bins (`梅/竹/松` labels in the
source), or the single fallback group (`'単一グループ'`) used when binning
fails. -/
inductive Tier where
  | bin : Nat → Tier
  | single : Tier
deriving DecidableEq, Repr

/-- The bin a value falls into: intervals are left-open/right-closed with
the lowest value included, so the index is the number of non-leftmost
edges strictly below the value. -/
def binIdx (edges : List Rat) (v : Rat) : Nat :=
  ((edges.drop 1).filter (fun e => decide (e < v))).length

/-- One `daily_kpi` row of the peer-group script, with the ADR,
characteristic-price and price-tier columns. -/
structure KpiT where
  kpi : Kpi
  ADR : Rat
  characteristic_price : Rat
  price_tier : Tier
deriving DecidableEq, Repr

/-- `daily_kpi` of the peer-group script.  Line 59 builds
`tier_labels = ['松','竹','梅'][::-1][:num_tiers]`, at most **3** labels
(`min n 3`).  `pd.qcut(..., labels=tier_labels, duplicates='drop')`
computes the `n + 1` quantile edges, drops duplicates, cuts on the
remaining distinct edges, and raises `ValueError` exactly when the number
of bins (distinct edges minus one) differs from the number of labels —
success therefore requires exactly `min n 3 + 1` distinct edges.  The
`except ValueError` branch prints a warning, assigns every row the single
fallback tier (a plain string column), and the run continues. -/
def dailyKpiT (rows : List Row) (n : Nat) : List KpiT :=
  if ((qcutEdges (cpCol rows) n).dedup).length = min n 3 + 1 then
    (dailyKpi rows).map (fun k =>
      ⟨k, adr k, charPrice rows k.listing,
        Tier.bin (binIdx ((qcutEdges (cpCol rows) n).dedup) (charPrice rows k.listing))⟩)
  else
    (dailyKpi rows).map (fun k => ⟨k, adr k, charPrice rows k.listing, Tier.single⟩)

/-- Threshold filter of the peer-group script (line 77). -/
def lastMinuteCasesT (rows : List Row) (t : Rat) (n : Nat) : List KpiT :=
  (dailyKpiT rows n).filter (fun x => decide (t ≤ x.kpi.last_30_booking_frac))

/-- Order on tiers (the categorical label order of the bins; the fallback
group only ever occurs alone). -/
def tierLe : Tier → Tier → Bool
  | Tier.single, _ => true
  | Tier.bin _, Tier.single => false
  | Tier.bin i, Tier.bin j => i ≤ j

/-- The champion of one price tier: first row of the tier's group after
the stable RevPAR-descending sort (line 80). -/
def bestTierFor (rows : List Row) (t : Rat) (n : Nat) (tr : Tier) : Option KpiT :=
  (sortDescBy (fun x => x.kpi.RevPAR) (lastMinuteCasesT rows t n)).find?
    (fun x => x.price_tier == tr)

/-- `best_dates` of the peer-group script (line 80),
`groupby(['price_tier']).first()`.  In the qcut-success branch
`price_tier` is **categorical** with one category per tier label, and the
groupby runs with pandas' default `observed=False`: it emits one output
row per category, in category order, including categories with no
qualifying row — `.first()` on such an empty group produces an all-NaN
row, modelled as `(tier, none)`.  In the fallback branch the column is a
plain string, so only the observed value (at most the one fallback tier)
forms a group. -/
def bestDatesT (rows : List Row) (t : Rat) (n : Nat) : List (Tier × Option KpiT) :=
  if ((qcutEdges (cpCol rows) n).dedup).length = min n 3 + 1 then
    (List.range (min n 3)).map
      (fun i => (Tier.bin i, bestTierFor rows t n (Tier.bin i)))
  else
    (sortB tierLe ((lastMinuteCasesT rows t n).map (fun x => x.price_tier)).dedup).map
      (fun tr => (tr, bestTierFor rows t n tr))

/-! ### Concrete inputs used by scenarios, witnesses and counterexamples -/

/-- The spec's sold-derivation scenario: one listing, one stay date, five
snapshots with stocks `[30, 30, 20, 20, 10]`, all observed within 30 days
of the stay date. -/
def rowsA : List Row :=
  [⟨⟨1, 1, 1⟩, 200, 180, 30, 100⟩,
   ⟨⟨1, 1, 1⟩, 200, 181, 30, 100⟩,
   ⟨⟨1, 1, 1⟩, 200, 182, 20, 100⟩,
   ⟨⟨1, 1, 1⟩, 200, 183, 20, 100⟩,
   ⟨⟨1, 1, 1⟩, 200, 184, 10, 100⟩]

/-- Boundary input: one listing with `max_stock = 29`, one with
`max_stock = 30`. -/
def rowsB : List Row :=
  [⟨⟨1, 1, 1⟩, 100, 10, 29, 50⟩,
   ⟨⟨2, 1, 1⟩, 100, 10, 30, 50⟩]

/-- Two listings with one KPI row each and characteristic prices 10 and
20: the characteristic-price column is `[10, 20]`. -/
def rowsC2 : List Row :=
  [⟨⟨1, 1, 1⟩, 100, 10, 30, 10⟩,
   ⟨⟨1, 1, 1⟩, 100, 11, 20, 10⟩,
   ⟨⟨2, 1, 1⟩, 100, 10, 30, 20⟩,
   ⟨⟨2, 1, 1⟩, 100, 11, 20, 20⟩]

/-- Two listings, characteristic prices 10 (twice) and 20: the
characteristic-price column is `[10, 10, 20]`. -/
def rowsC3 : List Row :=
  [⟨⟨1, 1, 1⟩, 100, 10, 30, 10⟩,
   ⟨⟨1, 1, 1⟩, 100, 11, 20, 10⟩,
   ⟨⟨1, 1, 1⟩, 101, 10, 30, 10⟩,
   ⟨⟨1, 1, 1⟩, 101, 11, 20, 10⟩,
   ⟨⟨2, 1, 1⟩, 100, 10, 30, 20⟩,
   ⟨⟨2, 1, 1⟩, 100, 11, 20, 20⟩]

/-- A fully parsed raw row. -/
def rawGood : RawRow :=
  ⟨some 1, some 1, some 1, DateField.val 100, DateField.val 10, some 30, some 50⟩

/-- A raw row whose stay date cell is empty (`NaN` → `NaT`, dropped by
`dropna`). -/
def rawMissing : RawRow :=
  ⟨some 1, some 1, some 1, DateField.missing, DateField.val 10, some 30, some 50⟩

/-- A raw row whose stay date cell holds an unparseable non-empty string
(`to_datetime` raises on it). -/
def rawBad : RawRow :=
  ⟨some 1, some 1, some 1, DateField.malformed, DateField.val 10, some 30, some 50⟩

/-- An input containing one malformed-date row. -/
def rawsBad : List RawRow := [rawGood, rawBad]

/-! ### Junk defaults used with `List.getD` in index statements -/

/-- Junk default used with `List.getD` in index statements. -/
def defPair : Row × Int := (⟨⟨0, 0, 0⟩, 0, 0, 0, 0⟩, 0)

/-- Default `Kpi` used with `List.getD` in witness statements. -/
def defKpi : Kpi := ⟨⟨0, 0, 0⟩, 0, 0, 0, 0, 0, 0⟩

/-- Default `KpiT` used with `List.getD` in witness statements. -/
def defKpiT : KpiT := ⟨defKpi, 0, 0, Tier.single⟩

/-! ### Theorems -/

theorem insAsc_perm {α β : Type} [LinearOrder β] (g : α → β) (a : α) :
    ∀ l : List α, (insAsc g a l).Perm (a :: l)
  | [] => List.Perm.refl _
  | b :: l => by
    by_cases h : g a ≤ g b
    · simp [insAsc, h]
    · simpa [insAsc, h] using ((insAsc_perm g a l).cons b).trans (List.Perm.swap a b l)

theorem sortAscBy_perm {α β : Type} [LinearOrder β] (g : α → β) :
    ∀ l : List α, (sortAscBy g l).Perm l
  | [] => List.Perm.refl _
  | a :: l => by
    simpa [sortAscBy] using (insAsc_perm g a (sortAscBy g l)).trans
      ((sortAscBy_perm g l).cons a)

theorem mem_sortAscBy {α β : Type} [LinearOrder β] {g : α → β} {l : List α} {x : α} :
    x ∈ sortAscBy g l ↔ x ∈ l :=
  (sortAscBy_perm g l).mem_iff

theorem mem_insAsc {α β : Type} [LinearOrder β] {g : α → β} {a x : α} {l : List α} :
    x ∈ insAsc g a l ↔ x = a ∨ x ∈ l := by
  rw [(insAsc_perm g a l).mem_iff]; simp

theorem insAsc_pairwise {α β : Type} [LinearOrder β] (g : α → β) (a : α) {l : List α}
    (h : l.Pairwise (fun x y => g x ≤ g y)) :
    (insAsc g a l).Pairwise (fun x y => g x ≤ g y) := by
  induction l with
  | nil => simp [insAsc]
  | cons b l ih =>
    rcases List.pairwise_cons.1 h with ⟨hb, hl⟩
    by_cases hab : g a ≤ g b
    · rw [insAsc, if_pos hab]
      refine List.pairwise_cons.2 ⟨?_, h⟩
      intro x hx
      rcases List.mem_cons.1 hx with hx | hx
      · exact hx ▸ hab
      · exact le_trans hab (hb x hx)
    · rw [insAsc, if_neg hab]
      refine List.pairwise_cons.2 ⟨?_, ih hl⟩
      intro x hx
      rcases mem_insAsc.1 hx with hx | hx
      · subst hx; exact le_of_lt (lt_of_not_le hab)
      · exact hb x hx

theorem sortAscBy_pairwise {α β : Type} [LinearOrder β] (g : α → β) :
    ∀ l : List α, (sortAscBy g l).Pairwise (fun x y => g x ≤ g y)
  | [] => by simp [sortAscBy]
  | a :: l => insAsc_pairwise g a (sortAscBy_pairwise g l)

theorem insDesc_perm {α β : Type} [LinearOrder β] (f : α → β) (a : α) :
    ∀ l : List α, (insDesc f a l).Perm (a :: l)
  | [] => List.Perm.refl _
  | b :: l => by
    by_cases h : f b ≤ f a
    · simp [insDesc, h]
    · simpa [insDesc, h] using ((insDesc_perm f a l).cons b).trans (List.Perm.swap a b l)

theorem sortDescBy_perm {α β : Type} [LinearOrder β] (f : α → β) :
    ∀ l : List α, (sortDescBy f l).Perm l
  | [] => List.Perm.refl _
  | a :: l => by
    simpa [sortDescBy] using (insDesc_perm f a (sortDescBy f l)).trans
      ((sortDescBy_perm f l).cons a)

theorem mem_sortDescBy {α β : Type} [LinearOrder β] {f : α → β} {l : List α} {x : α} :
    x ∈ sortDescBy f l ↔ x ∈ l :=
  (sortDescBy_perm f l).mem_iff

theorem mem_insDesc {α β : Type} [LinearOrder β] {f : α → β} {a x : α} {l : List α} :
    x ∈ insDesc f a l ↔ x = a ∨ x ∈ l := by
  rw [(insDesc_perm f a l).mem_iff]; simp

theorem insDesc_pairwise {α β : Type} [LinearOrder β] (f : α → β) (a : α) {l : List α}
    (h : l.Pairwise (fun x y => f y ≤ f x)) :
    (insDesc f a l).Pairwise (fun x y => f y ≤ f x) := by
  induction l with
  | nil => simp [insDesc]
  | cons b l ih =>
    rcases List.pairwise_cons.1 h with ⟨hb, hl⟩
    by_cases hab : f b ≤ f a
    · rw [insDesc, if_pos hab]
      refine List.pairwise_cons.2 ⟨?_, h⟩
      intro x hx
      rcases List.mem_cons.1 hx with hx | hx
      · exact hx ▸ hab
      · exact le_trans (hb x hx) hab
    · rw [insDesc, if_neg hab]
      refine List.pairwise_cons.2 ⟨?_, ih hl⟩
      intro x hx
      rcases mem_insDesc.1 hx with hx | hx
      · subst hx; exact le_of_lt (lt_of_not_le hab)
      · exact hb x hx

theorem sortDescBy_pairwise {α β : Type} [LinearOrder β] (f : α → β) :
    ∀ l : List α, (sortDescBy f l).Pairwise (fun x y => f y ≤ f x)
  | [] => by simp [sortDescBy]
  | a :: l => insDesc_pairwise f a (sortDescBy_pairwise f l)

theorem insB_perm {α : Type} (le : α → α → Bool) (a : α) :
    ∀ l : List α, (insB le a l).Perm (a :: l)
  | [] => List.Perm.refl _
  | b :: l => by
    by_cases h : le a b
    · simp [insB, h]
    · simpa [insB, h] using ((insB_perm le a l).cons b).trans (List.Perm.swap a b l)

theorem sortB_perm {α : Type} (le : α → α → Bool) :
    ∀ l : List α, (sortB le l).Perm l
  | [] => List.Perm.refl _
  | a :: l => by
    simpa [sortB] using (insB_perm le a (sortB le l)).trans ((sortB_perm le l).cons a)

theorem mem_sortB {α : Type} {le : α → α → Bool} {l : List α} {x : α} :
    x ∈ sortB le l ↔ x ∈ l :=
  (sortB_perm le l).mem_iff

theorem pickBetter_none {α β : Type} [LinearOrder β] (f : α → β) (a : α) :
    pickBetter f a none = some a := rfl

theorem pickBetter_some {α β : Type} [LinearOrder β] (f : α → β) (a b : α) :
    pickBetter f a (some b) = if f a < f b then some b else some a := rfl

theorem firstMaxBy_mem {α β : Type} [LinearOrder β] (f : α → β) :
    ∀ (l : List α) (m : α), firstMaxBy f l = some m → m ∈ l
  | [], m => by simp [firstMaxBy]
  | a :: l, m => by
    intro h
    cases hl : firstMaxBy f l with
    | none =>
      rw [firstMaxBy, hl, pickBetter_none] at h
      exact (Option.some.inj h) ▸ List.mem_cons_self a l
    | some b =>
      rw [firstMaxBy, hl, pickBetter_some] at h
      by_cases hfa : f a < f b
      · rw [if_pos hfa] at h
        rcases Option.some.inj h with rfl
        exact List.mem_cons_of_mem a (firstMaxBy_mem f l b hl)
      · rw [if_neg hfa] at h
        exact (Option.some.inj h) ▸ List.mem_cons_self a l

theorem firstMaxBy_eq_none {α β : Type} [LinearOrder β] (f : α → β) :
    ∀ l : List α, firstMaxBy f l = none → l = []
  | [], _ => rfl
  | a :: l, h => by
    rw [firstMaxBy] at h
    cases hl : firstMaxBy f l with
    | none => rw [hl, pickBetter_none] at h; cases h
    | some b =>
      rw [hl, pickBetter_some] at h
      by_cases hfa : f a < f b
      · rw [if_pos hfa] at h; cases h
      · rw [if_neg hfa] at h; cases h

theorem firstMaxBy_is_max {α β : Type} [LinearOrder β] (f : α → β) :
    ∀ (l : List α) (m : α), firstMaxBy f l = some m → ∀ x ∈ l, f x ≤ f m
  | [], m => by simp [firstMaxBy]
  | a :: l, m => by
    intro h x hx
    cases hl : firstMaxBy f l with
    | none =>
      rw [firstMaxBy, hl, pickBetter_none] at h
      rcases Option.some.inj h with rfl
      rcases List.mem_cons.1 hx with rfl | hx
      · exact le_refl _
      · rw [firstMaxBy_eq_none f l hl] at hx; cases hx
    | some b =>
      rw [firstMaxBy, hl, pickBetter_some] at h
      by_cases hfa : f a < f b
      · rw [if_pos hfa] at h
        rcases Option.some.inj h with rfl
        rcases List.mem_cons.1 hx with rfl | hx
        · exact le_of_lt hfa
        · exact firstMaxBy_is_max f l b hl x hx
      · rw [if_neg hfa] at h
        rcases Option.some.inj h with rfl
        rcases List.mem_cons.1 hx with rfl | hx
        · exact le_refl _
        · exact le_trans (firstMaxBy_is_max f l b hl x hx) (le_of_not_lt hfa)

/-- On a list sorted descending by `f`, inserting `a` and then taking the
first element satisfying `p` follows the earliest-maximum rule. -/
theorem find?_insDesc {α β : Type} [LinearOrder β] (f : α → β) (p : α → Bool) (a : α) :
    ∀ s : List α, s.Pairwise (fun x y => f y ≤ f x) →
      (insDesc f a s).find? p =
        (if p a then pickBetter f a (s.find? p) else s.find? p)
  | [], _ => by
    by_cases hpa : p a <;> simp [insDesc, List.find?, hpa, pickBetter]
  | b :: l, hs => by
    rcases List.pairwise_cons.1 hs with ⟨hb, hl⟩
    by_cases hba : f b ≤ f a
    · rw [insDesc, if_pos hba]
      by_cases hpa : p a
      · rw [List.find?_cons_of_pos _ hpa, if_pos hpa]
        cases hf : (b :: l).find? p with
        | none => rfl
        | some c =>
          have hc : c ∈ b :: l := List.mem_of_find?_eq_some hf
          have hcb : f c ≤ f a := by
            rcases List.mem_cons.1 hc with rfl | hc
            · exact hba
            · exact le_trans (hb c hc) hba
          rw [pickBetter_some, if_neg (not_lt_of_le hcb)]
      · rw [List.find?_cons_of_neg _ hpa, if_neg hpa]
    · rw [insDesc, if_neg hba]
      by_cases hpb : p b
      · rw [List.find?_cons_of_pos _ hpb, List.find?_cons_of_pos _ hpb]
        by_cases hpa : p a
        · rw [if_pos hpa, pickBetter_some, if_pos (lt_of_not_le hba)]
        · rw [if_neg hpa]
      · rw [List.find?_cons_of_neg _ hpb, List.find?_cons_of_neg _ hpb,
          find?_insDesc f p a l hl]

/-- Selecting the first `p`-row of the stable descending sort equals the
earliest-maximum rule applied to the `p`-rows in pre-sort order. -/
theorem find?_sortDescBy {α β : Type} [LinearOrder β] (f : α → β) (p : α → Bool) :
    ∀ l : List α, (sortDescBy f l).find? p = firstMaxBy f (l.filter p)
  | [] => rfl
  | a :: l => by
    rw [sortDescBy, find?_insDesc f p a (sortDescBy f l) (sortDescBy_pairwise f l),
      find?_sortDescBy f p l]
    by_cases hpa : p a
    · rw [if_pos hpa, List.filter_cons_of_pos hpa, firstMaxBy]
    · rw [if_neg hpa, List.filter_cons_of_neg hpa]

theorem le_maxList : ∀ (l : List Int), ∀ x ∈ l, x ≤ maxList l
  | [], x => by simp
  | [y], x => by
    intro hx
    rcases List.mem_singleton.1 hx with rfl
    exact le_refl _
  | y :: z :: t, x => by
    intro hx
    rcases List.mem_cons.1 hx with rfl | hx
    · exact le_max_left _ _
    · exact le_trans (le_maxList (z :: t) x hx) (le_max_right _ _)

theorem maxList_mem : ∀ l : List Int, l ≠ [] → maxList l ∈ l
  | [], h => absurd rfl h
  | [x], _ => List.mem_singleton.2 rfl
  | x :: y :: t, _ => by
    rcases le_total (maxList (y :: t)) x with h | h
    · rw [maxList, max_eq_left h]; exact List.mem_cons_self _ _
    · rw [maxList, max_eq_right h]
      exact List.mem_cons_of_mem x (maxList_mem (y :: t) (by simp))

theorem mkKpi_listing (rows fRows : List Row) (k : Listing × Int) :
    (mkKpi rows fRows k).listing = k.1 := rfl

theorem mkKpi_date (rows fRows : List Row) (k : Listing × Int) :
    (mkKpi rows fRows k).date = k.2 := rfl

theorem mkKpi_total_revenue (rows fRows : List Row) (k : Listing × Int) :
    (mkKpi rows fRows k).total_revenue = totalRevenue fRows k := rfl

theorem mkKpi_total_sold (rows fRows : List Row) (k : Listing × Int) :
    (mkKpi rows fRows k).total_sold = totalSold fRows k := rfl

theorem mkKpi_max_stock (rows fRows : List Row) (k : Listing × Int) :
    (mkKpi rows fRows k).max_stock = maxStockL rows k.1 := rfl

theorem mkKpi_RevPAR (rows fRows : List Row) (k : Listing × Int) :
    (mkKpi rows fRows k).RevPAR =
      divOr0 (totalRevenue fRows k) ((maxStockL rows k.1 : Int) : Rat) := rfl

theorem mkKpi_frac (rows fRows : List Row) (k : Listing × Int) :
    (mkKpi rows fRows k).last_30_booking_frac =
      divOr0 ((soldLast30 fRows k : Int) : Rat) ((totalSold fRows k : Int) : Rat) := rfl

theorem soldSeq_map_fst :
    ∀ (acc : Option Int) (l : List Row), (soldSeq acc l).map (fun p => p.1) = l
  | none, [] => rfl
  | some _, [] => rfl
  | none, r :: rs => by
    rw [soldSeq, List.map_cons, soldSeq_map_fst (some r.stock) rs]
  | some prev, r :: rs => by
    rw [soldSeq, List.map_cons, soldSeq_map_fst (some r.stock) rs]

theorem soldSeq_snd_nonneg :
    ∀ (acc : Option Int) (l : List Row), ∀ p ∈ soldSeq acc l, 0 ≤ p.2
  | none, [], p => by simp [soldSeq]
  | some _, [], p => by simp [soldSeq]
  | none, r :: rs, p => by
    rw [soldSeq]
    intro hp
    rcases List.mem_cons.1 hp with rfl | hp
    · exact le_refl 0
    · exact soldSeq_snd_nonneg _ rs p hp
  | some prev, r :: rs, p => by
    rw [soldSeq]
    intro hp
    rcases List.mem_cons.1 hp with rfl | hp
    · exact le_max_right _ _
    · exact soldSeq_snd_nonneg _ rs p hp

/-- The first snapshot of a group has no predecessor and sells zero. -/
theorem soldSeq_head :
    ∀ (l : List Row), 0 < (soldSeq none l).length →
      ((soldSeq none l).getD 0 defPair).2 = 0 := by
  intro l hl
  cases l with
  | nil => simp [soldSeq] at hl
  | cons r rs => rfl

/-- Each later snapshot sells the clamped difference between the previous
snapshot's stock and its own. -/
theorem soldSeq_chain :
    ∀ (acc : Option Int) (l : List Row) (i : Nat),
      i + 1 < (soldSeq acc l).length →
      ((soldSeq acc l).getD (i + 1) defPair).2 =
        max (((soldSeq acc l).getD i defPair).1.stock -
              ((soldSeq acc l).getD (i + 1) defPair).1.stock) 0 := by
  intro acc l
  induction l generalizing acc with
  | nil => intro i hi; cases acc <;> simp [soldSeq] at hi
  | cons r rs ih =>
    intro i hi
    have hstep : ∀ (s0 : Int), soldSeq acc (r :: rs) = (r, s0) :: soldSeq (some r.stock) rs →
        ((soldSeq acc (r :: rs)).getD (i + 1) defPair).2 =
          max (((soldSeq acc (r :: rs)).getD i defPair).1.stock -
                ((soldSeq acc (r :: rs)).getD (i + 1) defPair).1.stock) 0 := by
      intro s0 heq
      rw [heq] at hi ⊢
      cases i with
      | zero =>
        cases rs with
        | nil => simp [soldSeq] at hi
        | cons r2 t => rfl
      | succ j =>
        have hj : j + 1 < (soldSeq (some r.stock) rs).length := by
          simpa using Nat.lt_of_succ_lt_succ hi
        simpa using ih (some r.stock) j hj
    cases acc with
    | none => exact hstep 0 rfl
    | some prev => exact hstep (max (prev - r.stock) 0) rfl

/-- Every sale event of a group carries that group's key. -/
theorem groupSold_key (rows : List Row) (k : Listing × Int) :
    ∀ p ∈ groupSold rows k, rowKey p.1 = k := by
  intro p hp
  have h1 : p.1 ∈ groupSorted rows k := by
    have hmem : p.1 ∈ (soldSeq none (groupSorted rows k)).map (fun q => q.1) :=
      List.mem_map_of_mem _ hp
    rwa [soldSeq_map_fst] at hmem
  have h2 := mem_sortAscBy.1 h1
  have h3 := List.of_mem_filter h2
  simpa using h3

theorem groupSold_snd_nonneg (rows : List Row) (k : Listing × Int) :
    ∀ p ∈ groupSold rows k, 0 ≤ p.2 :=
  soldSeq_snd_nonneg none (groupSorted rows k)

/-! ### Extracting one group from the annotated table -/

theorem filter_catGroups_not_mem (rows : List Row) (W : Row × Int → Bool)
    (k : Listing × Int) :
    ∀ ks : List (Listing × Int), k ∉ ks →
      (catGroups rows ks).filter (fun p => rowKey p.1 == k && W p) = [] := by
  intro ks
  induction ks with
  | nil => intro _; rfl
  | cons k2 t ih =>
    intro hk
    rw [catGroups, List.filter_append, ih (fun h => hk (List.mem_cons_of_mem _ h)),
      List.append_nil]
    refine List.filter_eq_nil_iff.2 ?_
    intro p hp
    have hpk := groupSold_key rows k2 p hp
    have hne : k2 ≠ k := fun h => hk (h ▸ List.mem_cons_self _ _)
    simp [hpk, hne]

theorem filter_catGroups_mem (rows : List Row) (W : Row × Int → Bool)
    (k : Listing × Int) :
    ∀ ks : List (Listing × Int), ks.Nodup → k ∈ ks →
      (catGroups rows ks).filter (fun p => rowKey p.1 == k && W p) =
        (groupSold rows k).filter W := by
  intro ks
  induction ks with
  | nil => intro _ h; cases h
  | cons k2 t ih =>
    intro hnd hk
    rcases List.nodup_cons.1 hnd with ⟨hk2t, hndt⟩
    rw [catGroups, List.filter_append]
    rcases List.mem_cons.1 hk with rfl | hkt
    · rw [filter_catGroups_not_mem rows W k t hk2t, List.append_nil]
      refine List.filter_congr ?_
      intro p hp
      have hpk := groupSold_key rows k p hp
      simp [hpk]
    · have hne : k2 ≠ k := fun h => hk2t (h ▸ hkt)
      rw [ih hndt hkt]
      have hz : (groupSold rows k2).filter (fun p => rowKey p.1 == k && W p) = [] := by
        refine List.filter_eq_nil_iff.2 ?_
        intro p hp
        have hpk := groupSold_key rows k2 p hp
        simp [hpk, hne]
      rw [hz, List.nil_append]

theorem keysOf_nodup (rows : List Row) : (keysOf rows).Nodup :=
  (sortB_perm keyLe ((rows.map rowKey).dedup)).nodup_iff.2 (List.nodup_dedup _)

/-- The rows of the annotated table with key `k` are exactly the ordered
sale events of group `k` (for an observed key). -/
theorem dfSold_group (rows : List Row) (W : Row × Int → Bool) (k : Listing × Int)
    (hk : k ∈ keysOf rows) :
    (dfSold rows).filter (fun p => rowKey p.1 == k && W p) =
      (groupSold rows k).filter W :=
  filter_catGroups_mem rows W k (keysOf rows) (keysOf_nodup rows) hk

theorem soldLast30_eq_group (rows : List Row) (k : Listing × Int)
    (hk : k ∈ keysOf rows) :
    soldLast30 rows k =
      (((groupSold rows k).filter
          (fun p => decide (p.1.date - 30 ≤ p.1.created_at))).map (fun p => p.2)).sum := by
  rw [soldLast30, dfSold_group rows _ k hk]

theorem soldBefore120_eq_group (rows : List Row) (k : Listing × Int)
    (hk : k ∈ keysOf rows) :
    soldBefore120 rows k =
      (((groupSold rows k).filter
          (fun p => decide (p.1.created_at < p.1.date - 120))).map (fun p => p.2)).sum := by
  rw [soldBefore120, dfSold_group rows _ k hk]

theorem totalSold_eq_group (rows : List Row) (k : Listing × Int)
    (hk : k ∈ keysOf rows) :
    totalSold rows k = ((groupSold rows k).map (fun p => p.2)).sum := by
  have h1 : (dfSold rows).filter (fun p => rowKey p.1 == k) =
      (dfSold rows).filter (fun p => rowKey p.1 == k && (fun _ => true) p) := by
    refine List.filter_congr ?_
    intro p hp
    simp
  rw [totalSold, h1, dfSold_group rows _ k hk, List.filter_true]

theorem totalRevenue_eq_group (rows : List Row) (k : Listing × Int)
    (hk : k ∈ keysOf rows) :
    totalRevenue rows k = ((groupSold rows k).map revenueOf).sum := by
  have h1 : (dfSold rows).filter (fun p => rowKey p.1 == k) =
      (dfSold rows).filter (fun p => rowKey p.1 == k && (fun _ => true) p) := by
    refine List.filter_congr ?_
    intro p hp
    simp
  rw [totalRevenue, h1, dfSold_group rows _ k hk, List.filter_true]

/-! ### Membership facts about `daily_kpi` -/

theorem mem_dailyKpi {rows : List Row} {x : Kpi} (hx : x ∈ dailyKpi rows) :
    ∃ k ∈ keysOf (filteredRows rows),
      x = mkKpi rows (filteredRows rows) k ∧ 0 < x.total_sold := by
  have h1 := List.mem_filter.1 hx
  rcases List.mem_map.1 h1.1 with ⟨k, hk, rfl⟩
  refine ⟨k, hk, rfl, ?_⟩
  simpa using h1.2

theorem keysOf_filtered_maxStock {rows : List Row} {k : Listing × Int}
    (hk : k ∈ keysOf (filteredRows rows)) : 30 ≤ maxStockL rows k.1 := by
  have h1 : k ∈ (filteredRows rows).map rowKey :=
    (List.dedup_subset _) (mem_sortB.1 hk)
  rcases List.mem_map.1 h1 with ⟨r, hr, rfl⟩
  have h2 := List.of_mem_filter hr
  simpa using h2

/-! ### Nonnegativity and bounds for the window sums -/

theorem catGroups_snd_nonneg (rows : List Row) :
    ∀ ks : List (Listing × Int), ∀ p ∈ catGroups rows ks, 0 ≤ p.2
  | [], p => by simp [catGroups]
  | k :: ks, p => by
    rw [catGroups]
    intro hp
    rcases List.mem_append.1 hp with hp | hp
    · exact groupSold_snd_nonneg rows k p hp
    · exact catGroups_snd_nonneg rows ks p hp

theorem dfSold_snd_nonneg (rows : List Row) : ∀ p ∈ dfSold rows, 0 ≤ p.2 :=
  catGroups_snd_nonneg rows (keysOf rows)

theorem soldLast30_nonneg (rows : List Row) (k : Listing × Int) :
    0 ≤ soldLast30 rows k := by
  refine List.sum_nonneg ?_
  intro x hx
  rcases List.mem_map.1 hx with ⟨p, hp, rfl⟩
  exact dfSold_snd_nonneg rows p (List.mem_filter.1 hp).1

/-- The late-window sum is a sub-sum of `total_sold` (the summands are the
group's clamped, hence nonnegative, sold values). -/
theorem soldLast30_le_totalSold (rows : List Row) (k : Listing × Int) :
    soldLast30 rows k ≤ totalSold rows k := by
  have hsub : ((dfSold rows).filter
        (fun p => rowKey p.1 == k && decide (p.1.date - 30 ≤ p.1.created_at))).Sublist
      ((dfSold rows).filter (fun p => rowKey p.1 == k)) :=
    List.monotone_filter_right _ (fun a ha => by
      simp only [Bool.and_eq_true] at ha
      exact ha.1)
  refine List.Sublist.sum_le_sum (hsub.map (fun p => p.2)) ?_
  intro x hx
  rcases List.mem_map.1 hx with ⟨p, hp, rfl⟩
  exact dfSold_snd_nonneg rows p (List.mem_filter.1 hp).1

/-! ### Membership in the peer-group KPI table -/

theorem mem_dailyKpiT {rows : List Row} {n : Nat} {y : KpiT}
    (hy : y ∈ dailyKpiT rows n) :
    y.kpi ∈ dailyKpi rows ∧ y.ADR = adr y.kpi ∧
      y.characteristic_price = charPrice rows y.kpi.listing ∧
      ((((qcutEdges (cpCol rows) n).dedup).length = min n 3 + 1 ∧
          y.price_tier =
            Tier.bin (binIdx ((qcutEdges (cpCol rows) n).dedup)
              (charPrice rows y.kpi.listing))) ∨
        (((qcutEdges (cpCol rows) n).dedup).length ≠ min n 3 + 1 ∧
          y.price_tier = Tier.single)) := by
  by_cases h : ((qcutEdges (cpCol rows) n).dedup).length = min n 3 + 1
  · rw [dailyKpiT, if_pos h] at hy
    rcases List.mem_map.1 hy with ⟨k, hk, rfl⟩
    exact ⟨hk, rfl, rfl, Or.inl ⟨h, rfl⟩⟩
  · rw [dailyKpiT, if_neg h] at hy
    rcases List.mem_map.1 hy with ⟨k, hk, rfl⟩
    exact ⟨hk, rfl, rfl, Or.inr ⟨h, rfl⟩⟩

/-! ### Generic helper lemmas -/

theorem filterMap_eq_filterMap_filter {α β : Type} (g : α → Option β) :
    ∀ l : List α, l.filterMap g = (l.filter (fun x => (g x).isSome)).filterMap g
  | [] => rfl
  | a :: l => by
    cases h : g a with
    | none =>
      rw [List.filterMap_cons, h, List.filter_cons_of_neg (by simp [h]),
        filterMap_eq_filterMap_filter g l]
    | some b =>
      rw [List.filterMap_cons, h, List.filter_cons_of_pos (by simp [h]),
        List.filterMap_cons, h, filterMap_eq_filterMap_filter g l]

/-! ### The claims -/

/-- C6 (amended): a row whose `date`/`created_at` (or any) cell is
*missing* is silently dropped by `dropna` during normalization, and the
pipeline's output on such an input equals its output on the same input
with those rows removed (shown for normalization itself and for the final
selection stage of both scripts); but a row holding an *unparseable
non-empty* date value makes `pd.to_datetime` — default `errors='raise'`,
outside the `try`/`except`, which catches only `FileNotFoundError` —
raise an uncaught `ValueError`, aborting the entire run instead of
dropping the row. -/
theorem C6_malformed_rows :
    (∀ raws : List RawRow, (∀ r ∈ raws, r.aborts = false) →
        normalize raws = normalize (raws.filter (fun r => r.toRow?.isSome))) ∧
    (∀ raws : List RawRow, (∃ r ∈ raws, r.aborts = true) →
        normalize raws = none) ∧
    (∀ (raws : List RawRow) (t : Rat) (l : Listing),
        (∀ r ∈ raws, r.aborts = false) →
        (normalize raws).map (fun rows => bestDateFor rows t l) =
          (normalize (raws.filter (fun r => r.toRow?.isSome))).map
            (fun rows => bestDateFor rows t l)) ∧
    (∀ (raws : List RawRow) (t : Rat) (n : Nat),
        (∀ r ∈ raws, r.aborts = false) →
        (normalize raws).map (fun rows => bestDatesT rows t n) =
          (normalize (raws.filter (fun r => r.toRow?.isSome))).map
            (fun rows => bestDatesT rows t n)) := by
  have hno : ∀ raws : List RawRow, (∀ r ∈ raws, r.aborts = false) →
      raws.any RawRow.aborts = false := by
    intro raws h
    cases hany : raws.any RawRow.aborts
    · rfl
    · rcases List.any_eq_true.1 hany with ⟨r, hr, habort⟩
      rw [h r hr] at habort
      cases habort
  have hnorm : ∀ raws : List RawRow, (∀ r ∈ raws, r.aborts = false) →
      normalize raws = normalize (raws.filter (fun r => r.toRow?.isSome)) := by
    intro raws h
    have ha := hno raws h
    have hb := hno (raws.filter (fun r => r.toRow?.isSome))
      (fun r hr => h r (List.mem_of_mem_filter hr))
    rw [normalize, normalize, if_neg (by rw [ha]; simp), if_neg (by rw [hb]; simp)]
    exact congrArg some (filterMap_eq_filterMap_filter RawRow.toRow? raws)
  refine ⟨hnorm, ?_, ?_, ?_⟩
  · rintro raws ⟨r, hr, habort⟩
    rw [normalize, if_pos (List.any_eq_true.2 ⟨r, hr, habort⟩)]
  · intro raws t l h
    rw [hnorm raws h]
  · intro raws t n h
    rw [hnorm raws h]

/-- Witness for C6: with a missing-date row normalization proceeds and
equals normalization of the input with that row removed; with a
malformed-date row the run aborts. -/
theorem C6_malformed_rows_witness :
    normalize [rawGood, rawMissing] =
        normalize ([rawGood, rawMissing].filter (fun r => r.toRow?.isSome)) ∧
      normalize rawsBad = none :=
  ⟨C6_malformed_rows.1 [rawGood, rawMissing] (by with_unfolding_all decide),
    C6_malformed_rows.2.1 rawsBad
      ⟨rawBad, by with_unfolding_all decide, by with_unfolding_all decide⟩⟩

/-- Counterexample to C6 as stated: on `rawsBad` (one well-formed row, one
row with an unparseable date) normalization aborts the run (`none`)
rather than dropping the bad row, so the pipeline's output differs from
its output on the input with that row removed. -/
theorem C6_malformed_rows_counterexample :
    normalize rawsBad = none ∧
      normalize (rawsBad.filter (fun r => r.toRow?.isSome)) =
        some [⟨⟨1, 1, 1⟩, 100, 10, 30, 50⟩] ∧
      normalize rawsBad ≠
        normalize (rawsBad.filter (fun r => r.toRow?.isSome)) := by
  refine ⟨by with_unfolding_all decide, by with_unfolding_all decide,
    by with_unfolding_all decide⟩

/-- C4: `max_stock` of a listing is the maximum stock over all of that
listing's snapshots (upper bound and attained); a row survives the
capacity filter—and hence participates in every downstream stage, all of
which consume `filteredRows`—iff its listing's `max_stock` is at least 30;
boundary: with `rowsB`, the listing with `max_stock = 29` is excluded
entirely and the one with `max_stock = 30` is included. -/
theorem C4_capacity_filter :
    (∀ (rows : List Row) (l : Listing),
        (∀ r ∈ rows, r.listing = l → r.stock ≤ maxStockL rows l) ∧
        ((∃ r ∈ rows, r.listing = l) →
          ∃ r ∈ rows, r.listing = l ∧ r.stock = maxStockL rows l)) ∧
    (∀ (rows : List Row) (r : Row),
        r ∈ filteredRows rows ↔ r ∈ rows ∧ 30 ≤ maxStockL rows r.listing) ∧
    (maxStockL rowsB ⟨1, 1, 1⟩ = 29 ∧ maxStockL rowsB ⟨2, 1, 1⟩ = 30 ∧
      filteredRows rowsB = [⟨⟨2, 1, 1⟩, 100, 10, 30, 50⟩]) := by
  refine ⟨?_, ?_, by decide, by decide, by decide⟩
  · intro rows l
    constructor
    · intro r hr hrl
      refine le_maxList _ _ ?_
      exact List.mem_map_of_mem _ (List.mem_filter.2 ⟨hr, by simp [hrl]⟩)
    · rintro ⟨r, hr, hrl⟩
      have hne : (rows.filter (fun s => s.listing == l)).map (fun s => s.stock) ≠ [] :=
        List.ne_nil_of_mem
          (List.mem_map_of_mem _ (List.mem_filter.2 ⟨hr, by simp [hrl]⟩))
      have hmem := maxList_mem _ hne
      rcases List.mem_map.1 hmem with ⟨r1, hr1, hst⟩
      have h1 := List.mem_filter.1 hr1
      exact ⟨r1, h1.1, by simpa using h1.2, hst⟩
  · intro rows r
    constructor
    · intro h
      have h1 := List.mem_filter.1 h
      exact ⟨h1.1, by simpa using h1.2⟩
    · intro h
      exact List.mem_filter.2 ⟨h.1, by simpa using h.2⟩

/-- Witness for C4 at the boundary input. -/
theorem C4_capacity_filter_witness :
    (⟨⟨1, 1, 1⟩, 100, 10, 29, 50⟩ : Row).stock ≤ maxStockL rowsB ⟨1, 1, 1⟩ ∧
      (⟨⟨2, 1, 1⟩, 100, 10, 30, 50⟩ : Row) ∈ filteredRows rowsB :=
  ⟨(C4_capacity_filter.1 rowsB ⟨1, 1, 1⟩).1 _ (by decide) rfl,
    (C4_capacity_filter.2.1 rowsB _).2 ⟨by decide, by decide⟩⟩

/-- C2: within each (listing, stay_date) group ordered ascending by
`observed_at`, the first snapshot sells 0, every later snapshot sells
`max(prev_stock - stock, 0)`, and revenue is `sold * price` at the current
snapshot; on the concrete scenario `rowsA` with stocks
`[30, 30, 20, 20, 10]` the sold sequence is `[0, 0, 10, 0, 10]` and
`total_sold = 20`. -/
theorem C2_sale_derivation :
    (∀ (rows : List Row) (k : Listing × Int),
        ((groupSold rows k).Pairwise
          (fun p q => p.1.created_at ≤ q.1.created_at)) ∧
        (0 < (groupSold rows k).length →
          ((groupSold rows k).getD 0 defPair).2 = 0) ∧
        (∀ i : Nat, i + 1 < (groupSold rows k).length →
          ((groupSold rows k).getD (i + 1) defPair).2 =
            max (((groupSold rows k).getD i defPair).1.stock -
                  ((groupSold rows k).getD (i + 1) defPair).1.stock) 0) ∧
        (∀ p ∈ groupSold rows k, revenueOf p = (p.2 : Rat) * p.1.price)) ∧
    ((groupSold (filteredRows rowsA) (⟨1, 1, 1⟩, 200)).map (fun p => p.2) =
        [0, 0, 10, 0, 10] ∧
      totalSold (filteredRows rowsA) (⟨1, 1, 1⟩, 200) = 20) := by
  refine ⟨?_, by decide, by decide⟩
  intro rows k
  refine ⟨?_, soldSeq_head _, soldSeq_chain none _, fun p _ => rfl⟩
  have h1 := sortAscBy_pairwise (fun r : Row => r.created_at)
    ((rows.filter (fun r => rowKey r == k)))
  have h2 : (groupSold rows k).map (fun p => p.1) = groupSorted rows k :=
    soldSeq_map_fst none (groupSorted rows k)
  have h3 : ((groupSold rows k).map (fun p => p.1)).Pairwise
      (fun a b : Row => a.created_at ≤ b.created_at) := by
    rw [h2]; exact h1
  exact List.Pairwise.of_map (fun p : Row × Int => p.1) (fun a b h => h) h3

/-- Witness for C2 at the scenario input: index 2 sells
`max(30 - 20, 0) = 10` and index 0 sells 0. -/
theorem C2_sale_derivation_witness :
    ((groupSold (filteredRows rowsA) (⟨1, 1, 1⟩, 200)).getD 2 defPair).2 =
        max (((groupSold (filteredRows rowsA) (⟨1, 1, 1⟩, 200)).getD 1 defPair).1.stock -
              ((groupSold (filteredRows rowsA) (⟨1, 1, 1⟩, 200)).getD 2 defPair).1.stock) 0 ∧
      ((groupSold (filteredRows rowsA) (⟨1, 1, 1⟩, 200)).getD 0 defPair).2 = 0 :=
  ⟨(C2_sale_derivation.1 (filteredRows rowsA) (⟨1, 1, 1⟩, 200)).2.2.1 1 (by decide),
    (C2_sale_derivation.1 (filteredRows rowsA) (⟨1, 1, 1⟩, 200)).2.1 (by decide)⟩

/-- C9: each ratio built by the pipeline defaults to zero when its
denominator would make the result undefined (`divOr0 a 0 = 0`, the model
of `fillna(0)` on the only NaN a division can produce), and for every
`daily_kpi` row the undefined-denominator branch is unreachable: the
pipeline's own filters force `total_sold > 0` and `max_stock ≥ 30`, so
every ratio is an ordinary division. -/
theorem C9_division_defaults :
    (∀ a : Rat, divOr0 a 0 = 0) ∧
    (∀ (rows : List Row), ∀ x ∈ dailyKpi rows,
        0 < x.total_sold ∧ 30 ≤ x.max_stock ∧
        x.RevPAR = x.total_revenue / (x.max_stock : Rat) ∧
        x.last_30_booking_frac =
          ((soldLast30 (filteredRows rows) (x.listing, x.date) : Int) : Rat) /
            (x.total_sold : Rat) ∧
        bookingRate120 rows (x.listing, x.date) =
          ((soldBefore120 (filteredRows rows) (x.listing, x.date) : Int) : Rat) /
            (x.max_stock : Rat)) ∧
    (∀ (rows : List Row) (n : Nat), ∀ y ∈ dailyKpiT rows n,
        0 < y.kpi.total_sold ∧
        y.ADR = y.kpi.total_revenue / (y.kpi.total_sold : Rat)) := by
  refine ⟨fun a => by simp [divOr0], ?_, ?_⟩
  · intro rows x hx
    obtain ⟨k, hk, rfl, hpos⟩ := mem_dailyKpi hx
    obtain ⟨kl, kd⟩ := k
    have h30 : 30 ≤ maxStockL rows kl := keysOf_filtered_maxStock hk
    have hmspos : (0 : Int) < maxStockL rows kl := lt_of_lt_of_le (by norm_num) h30
    have hmsne : ((maxStockL rows kl : Int) : Rat) ≠ 0 :=
      Int.cast_ne_zero.2 (ne_of_gt hmspos)
    rw [mkKpi_total_sold] at hpos
    have htsne : ((totalSold (filteredRows rows) (kl, kd) : Int) : Rat) ≠ 0 :=
      Int.cast_ne_zero.2 (ne_of_gt hpos)
    simp only [mkKpi_total_sold, mkKpi_max_stock, mkKpi_RevPAR, mkKpi_total_revenue,
      mkKpi_frac, mkKpi_listing, mkKpi_date, bookingRate120]
    refine ⟨hpos, h30, ?_, ?_, ?_⟩
    · rw [divOr0, if_neg hmsne]
    · rw [divOr0, if_neg htsne]
    · rw [divOr0, if_neg hmsne]
  · intro rows n y hy
    obtain ⟨hk, hadr, _, _⟩ := mem_dailyKpiT hy
    obtain ⟨k2, _, hkpi, hpos⟩ := mem_dailyKpi hk
    have htsne : ((y.kpi.total_sold : Int) : Rat) ≠ 0 :=
      Int.cast_ne_zero.2 (ne_of_gt hpos)
    refine ⟨hpos, ?_⟩
    rw [hadr, adr, divOr0, if_neg htsne]

/-- Witness for C9 on the KPI row of `rowsA`. -/
theorem C9_division_defaults_witness :
    0 < ((dailyKpi rowsA).getD 0 defKpi).total_sold ∧
      ((dailyKpi rowsA).getD 0 defKpi).RevPAR =
        ((dailyKpi rowsA).getD 0 defKpi).total_revenue /
          (((dailyKpi rowsA).getD 0 defKpi).max_stock : Rat) :=
  ⟨(C9_division_defaults.2.1 rowsA _ (by with_unfolding_all decide)).1,
    (C9_division_defaults.2.1 rowsA _ (by with_unfolding_all decide)).2.2.1⟩

/-- C10: for every `daily_kpi` row (which survived the `total_sold > 0`
filter), the late-booking share lies in `[0, 1]`: the window sum adds a
subset of the same nonnegative clamped sold values whose full-group sum is
`total_sold`. -/
theorem C10_frac_invariant :
    ∀ (rows : List Row), ∀ x ∈ dailyKpi rows,
      0 ≤ x.last_30_booking_frac ∧ x.last_30_booking_frac ≤ 1 := by
  intro rows x hx
  obtain ⟨k, hk, rfl, hpos⟩ := mem_dailyKpi hx
  obtain ⟨kl, kd⟩ := k
  rw [mkKpi_total_sold] at hpos
  have htpos : (0 : Rat) < ((totalSold (filteredRows rows) (kl, kd) : Int) : Rat) := by
    exact_mod_cast hpos
  have hS0 : (0 : Rat) ≤ ((soldLast30 (filteredRows rows) (kl, kd) : Int) : Rat) := by
    exact_mod_cast soldLast30_nonneg (filteredRows rows) (kl, kd)
  have hST : ((soldLast30 (filteredRows rows) (kl, kd) : Int) : Rat) ≤
      ((totalSold (filteredRows rows) (kl, kd) : Int) : Rat) := by
    exact_mod_cast soldLast30_le_totalSold (filteredRows rows) (kl, kd)
  rw [mkKpi_frac, divOr0, if_neg (ne_of_gt htpos)]
  exact ⟨div_nonneg hS0 (le_of_lt htpos), (div_le_one htpos).2 hST⟩

/-- Witness for C10 on the KPI row of `rowsA`. -/
theorem C10_frac_invariant_witness :
    0 ≤ ((dailyKpi rowsA).getD 0 defKpi).last_30_booking_frac ∧
      ((dailyKpi rowsA).getD 0 defKpi).last_30_booking_frac ≤ 1 :=
  C10_frac_invariant rowsA _ (by with_unfolding_all decide)

/-- C3: for every retained (listing, stay_date) row — all of which have
`total_sold > 0` — the late-booking share equals the sum of `sold` over
that group's sale events with `observed_at ≥ stay_date - 30` divided by
`total_sold` (an absent join result is the empty sum, i.e. zero); in the
scenario `rowsA`, where all 20 sales fall within 30 days of the stay
date, the share is `1.0` and meets the threshold `0.5`. -/
theorem C3_late_booking_join :
    (∀ (rows : List Row), ∀ x ∈ dailyKpi rows,
        0 < x.total_sold ∧
        x.last_30_booking_frac =
          (((((groupSold (filteredRows rows) (x.listing, x.date)).filter
              (fun p => decide (p.1.date - 30 ≤ p.1.created_at))).map
                (fun p => p.2)).sum : Int) : Rat) /
            (x.total_sold : Rat)) ∧
    ((dailyKpi rowsA).map (fun x => x.last_30_booking_frac) = [1] ∧
      lastMinuteCases rowsA (1 / 2) = dailyKpi rowsA) := by
  refine ⟨?_, by with_unfolding_all decide, by with_unfolding_all decide⟩
  intro rows x hx
  obtain ⟨k, hk, rfl, hpos⟩ := mem_dailyKpi hx
  obtain ⟨kl, kd⟩ := k
  rw [mkKpi_total_sold] at hpos
  have htsne : ((totalSold (filteredRows rows) (kl, kd) : Int) : Rat) ≠ 0 :=
    Int.cast_ne_zero.2 (ne_of_gt hpos)
  simp only [mkKpi_total_sold, mkKpi_frac, mkKpi_listing, mkKpi_date]
  refine ⟨hpos, ?_⟩
  rw [divOr0, if_neg htsne, soldLast30_eq_group (filteredRows rows) (kl, kd) hk]

/-- Witness for C3 on the KPI row of `rowsA`. -/
theorem C3_late_booking_join_witness :
    0 < ((dailyKpi rowsA).getD 0 defKpi).total_sold ∧
      ((dailyKpi rowsA).getD 0 defKpi).last_30_booking_frac =
        (((((groupSold (filteredRows rowsA)
              (((dailyKpi rowsA).getD 0 defKpi).listing,
                ((dailyKpi rowsA).getD 0 defKpi).date)).filter
            (fun p => decide (p.1.date - 30 ≤ p.1.created_at))).map
              (fun p => p.2)).sum : Int) : Rat) /
          (((dailyKpi rowsA).getD 0 defKpi).total_sold : Rat) :=
  C3_late_booking_join.1 rowsA _ (by with_unfolding_all decide)

/-- C5: for every retained (listing, stay_date) row of the first script,
`booking_rate_at_120_days` equals the sum of `sold` over that group's sale
events with `observed_at < stay_date - 120` — the cutoff is recomputed
per row from that row's own stay date — divided by `max_stock`, with an
absent join result contributing the empty sum zero. -/
theorem C5_early_booking_join :
    ∀ (rows : List Row), ∀ x ∈ dailyKpi rows,
      bookingRate120 rows (x.listing, x.date) =
        (((((groupSold (filteredRows rows) (x.listing, x.date)).filter
            (fun p => decide (p.1.created_at < p.1.date - 120))).map
              (fun p => p.2)).sum : Int) : Rat) /
          (x.max_stock : Rat) := by
  intro rows x hx
  obtain ⟨k, hk, rfl, hpos⟩ := mem_dailyKpi hx
  obtain ⟨kl, kd⟩ := k
  have h30 : 30 ≤ maxStockL rows kl := keysOf_filtered_maxStock hk
  have hmsne : ((maxStockL rows kl : Int) : Rat) ≠ 0 :=
    Int.cast_ne_zero.2 (ne_of_gt (lt_of_lt_of_le (by norm_num) h30))
  simp only [mkKpi_listing, mkKpi_date, mkKpi_max_stock, bookingRate120]
  rw [divOr0, if_neg hmsne, soldBefore120_eq_group (filteredRows rows) (kl, kd) hk]

/-- C1: in both selection modes the chosen exemplar per grouping key
(listing in the global-best script, price tier in the peer-group script)
is exactly the earliest-maximum rule applied to the qualifying rows: the
row of that key with maximum RevPAR among rows whose late-booking share
meets the threshold, ties resolved in favour of the row occurring first
in pre-sort order (the descending sort is modelled as stable).  The third
conjunct spells the rule out: a selected exemplar qualifies, carries its
key, and no qualifying row of the same key has strictly larger RevPAR. -/
theorem C1_exemplar_selection :
    (∀ (rows : List Row) (t : Rat) (l : Listing),
        bestDateFor rows t l =
          firstMaxBy Kpi.RevPAR
            ((lastMinuteCases rows t).filter (fun k => k.listing == l))) ∧
    (∀ (rows : List Row) (t : Rat) (n : Nat) (tr : Tier),
        bestTierFor rows t n tr =
          firstMaxBy (fun x : KpiT => x.kpi.RevPAR)
            ((lastMinuteCasesT rows t n).filter (fun x => x.price_tier == tr))) ∧
    (∀ (rows : List Row) (t : Rat) (l : Listing) (m : Kpi),
        bestDateFor rows t l = some m →
          m ∈ lastMinuteCases rows t ∧ m.listing = l ∧
            ∀ x ∈ lastMinuteCases rows t, x.listing = l → x.RevPAR ≤ m.RevPAR) := by
  have h1 : ∀ (rows : List Row) (t : Rat) (l : Listing),
      bestDateFor rows t l =
        firstMaxBy Kpi.RevPAR
          ((lastMinuteCases rows t).filter (fun k => k.listing == l)) := by
    intro rows t l
    exact find?_sortDescBy Kpi.RevPAR (fun k => k.listing == l) (lastMinuteCases rows t)
  refine ⟨h1, ?_, ?_⟩
  · intro rows t n tr
    exact find?_sortDescBy (fun x : KpiT => x.kpi.RevPAR) (fun x => x.price_tier == tr)
      (lastMinuteCasesT rows t n)
  · intro rows t l m hm
    rw [h1 rows t l] at hm
    have hmem := firstMaxBy_mem _ _ m hm
    have hmax := firstMaxBy_is_max _ _ m hm
    have h2 := List.mem_filter.1 hmem
    refine ⟨h2.1, by simpa using h2.2, ?_⟩
    intro x hx hxl
    exact hmax x (List.mem_filter.2 ⟨hx, by simp [hxl]⟩)

/-- Witness for C1: on `rowsA` with threshold `1/2` the selected exemplar
of listing (1,1,1) qualifies and carries the listing key. -/
theorem C1_exemplar_selection_witness :
    (dailyKpi rowsA).getD 0 defKpi ∈ lastMinuteCases rowsA (1 / 2) ∧
      ((dailyKpi rowsA).getD 0 defKpi).listing = ⟨1, 1, 1⟩ :=
  have h := C1_exemplar_selection.2.2 rowsA (1 / 2) ⟨1, 1, 1⟩
    ((dailyKpi rowsA).getD 0 defKpi) (by with_unfolding_all decide)
  ⟨h.1, h.2.1⟩

/-- C7 (amended): whenever quantile binning cannot produce one bin per
label — the label list is capped at 3, so success needs exactly
`min num_tiers 3 + 1` distinct edges — the `ValueError` fallback assigns
every row one and the same single tier and the run continues (the
assignment is total); with `num_tiers = 3` and only two distinct
characteristic prices this happens whenever some price repeats — e.g.
column `[10, 10, 20]` of `rowsC3` yields the single fallback tier for
every row — but with exactly one row of each price (column `[10, 20]`)
the interpolated edges are all distinct and binning succeeds with two
occupied tiers (see the counterexample). -/
theorem C7_degenerate_segmentation :
    (∀ (rows : List Row) (n : Nat),
        ((qcutEdges (cpCol rows) n).dedup).length ≠ min n 3 + 1 →
        ∀ y ∈ dailyKpiT rows n, y.price_tier = Tier.single) ∧
    ((cpCol rowsC3).dedup = [10, 20] ∧
      ((dailyKpiT rowsC3 3).map (fun y => y.price_tier)).dedup = [Tier.single]) := by
  refine ⟨?_, by with_unfolding_all decide, by with_unfolding_all decide⟩
  intro rows n h y hy
  rw [dailyKpiT, if_neg h] at hy
  rcases List.mem_map.1 hy with ⟨k, hk, rfl⟩
  rfl

/-- Witness for C7: the fallback branch fires on `rowsC3` with
`num_tiers = 3`. -/
theorem C7_degenerate_segmentation_witness :
    ((dailyKpiT rowsC3 3).getD 0 defKpiT).price_tier = Tier.single :=
  C7_degenerate_segmentation.1 rowsC3 3 (by with_unfolding_all decide) _
    (by with_unfolding_all decide)

/-- Counterexample to C7 as stated: `rowsC2` has exactly two distinct
characteristic prices, yet with `num_tiers = 3` the quantile edges
`[10, 40/3, 50/3, 20]` are all distinct, `qcut` succeeds, and two distinct
price tiers (not one) exist across the rows. -/
theorem C7_degenerate_segmentation_counterexample :
    (cpCol rowsC2).dedup = [10, 20] ∧
      ((dailyKpiT rowsC2 3).map (fun y => y.price_tier)).dedup =
        [Tier.bin 0, Tier.bin 2] ∧
      ¬ ((dailyKpiT rowsC2 3).map (fun y => y.price_tier)).dedup.length = 1 := by
  refine ⟨by with_unfolding_all decide, by with_unfolding_all decide,
    by with_unfolding_all decide⟩

/-! ### A counting lemma for distinct tier values -/

theorem dedup_length_le_of_subset {α : Type} [DecidableEq α] {l s : List α}
    (h : ∀ x ∈ l, x ∈ s) : l.dedup.length ≤ s.length :=
  (List.subperm_of_subset (List.nodup_dedup l)
    (fun x hx => h x (List.dedup_subset l hx))).length_le

/-- C8 (amended): in the peer-group selection every emitted exemplar row
is a qualifying row of its tier, and a tier with no qualifying row yields
an empty exemplar: in the qcut-success branch the categorical groupby
(`observed=False`) still emits a row for that tier, but with an all-NaN
payload (`none`) — the tier is present as an empty row, not absent — and
in the string-labelled fallback branch only observed tiers form groups;
in both branches the result has at most `num_tiers` rows system-wide. -/
theorem C8_empty_segment :
    ∀ (rows : List Row) (t : Rat) (n : Nat),
      (1 ≤ n → (bestDatesT rows t n).length ≤ n) ∧
      (∀ p ∈ bestDatesT rows t n, ∀ b : KpiT, p.2 = some b →
          b ∈ lastMinuteCasesT rows t n ∧ b.price_tier = p.1) ∧
      (∀ p ∈ bestDatesT rows t n,
          (∀ x ∈ lastMinuteCasesT rows t n, x.price_tier ≠ p.1) → p.2 = none) := by
  intro rows t n
  have hsome : ∀ (tr : Tier) (b : KpiT), bestTierFor rows t n tr = some b →
      b ∈ lastMinuteCasesT rows t n ∧ b.price_tier = tr := by
    intro tr b hb
    have h1 : b ∈ sortDescBy (fun x : KpiT => x.kpi.RevPAR) (lastMinuteCasesT rows t n) :=
      List.mem_of_find?_eq_some hb
    have h2 := List.find?_some hb
    exact ⟨mem_sortDescBy.1 h1, by simpa using h2⟩
  have hnone : ∀ tr : Tier, (∀ x ∈ lastMinuteCasesT rows t n, x.price_tier ≠ tr) →
      bestTierFor rows t n tr = none := by
    intro tr h
    refine List.find?_eq_none.2 ?_
    intro x hx
    simpa using h x (mem_sortDescBy.1 hx)
  have hshape : ∀ p ∈ bestDatesT rows t n, p.2 = bestTierFor rows t n p.1 := by
    intro p hp
    rw [bestDatesT] at hp
    by_cases hq : ((qcutEdges (cpCol rows) n).dedup).length = min n 3 + 1
    · rw [if_pos hq] at hp
      rcases List.mem_map.1 hp with ⟨i, _, rfl⟩
      rfl
    · rw [if_neg hq] at hp
      rcases List.mem_map.1 hp with ⟨tr, _, rfl⟩
      rfl
  refine ⟨?_, ?_, ?_⟩
  · intro hn
    rw [bestDatesT]
    by_cases hq : ((qcutEdges (cpCol rows) n).dedup).length = min n 3 + 1
    · rw [if_pos hq, List.length_map, List.length_range]
      exact Nat.min_le_left n 3
    · rw [if_neg hq, List.length_map, (sortB_perm _ _).length_eq]
      have hsub : ∀ x ∈ (lastMinuteCasesT rows t n).map (fun y => y.price_tier),
          x ∈ [Tier.single] := by
        intro x hx
        rcases List.mem_map.1 hx with ⟨y, hy, rfl⟩
        have hyT := (List.mem_filter.1 hy).1
        obtain ⟨_, _, _, hor⟩ := mem_dailyKpiT hyT
        rcases hor with ⟨hq2, _⟩ | ⟨_, htier⟩
        · exact absurd hq2 hq
        · rw [htier]
          exact List.mem_singleton.2 rfl
      calc ((lastMinuteCasesT rows t n).map (fun x => x.price_tier)).dedup.length
          ≤ 1 := dedup_length_le_of_subset hsub
        _ ≤ n := hn
  · intro p hp b hb
    rw [hshape p hp] at hb
    exact hsome p.1 b hb
  · intro p hp h
    rw [hshape p hp]
    exact hnone p.1 h

/-- Witness for C8 on `rowsC2` with threshold 0 and three tiers: the
result has at most three rows, and the middle tier, which no qualifying
row occupies, carries an empty exemplar. -/
theorem C8_empty_segment_witness :
    (bestDatesT rowsC2 0 3).length ≤ 3 ∧
      ((bestDatesT rowsC2 0 3).getD 1 (Tier.single, none)).2 = none :=
  ⟨(C8_empty_segment rowsC2 0 3).1 (by decide),
    (C8_empty_segment rowsC2 0 3).2.2 _ (by with_unfolding_all decide)
      (by with_unfolding_all decide)⟩

/-- Counterexample to C8 as stated: on `rowsC2` with threshold 0 and
`num_tiers = 3`, tier `bin 1` has no qualifying row, yet the selection
emits three rows and the middle one is that tier's empty (all-NaN) row —
the empty tier is present in `best_dates`, not simply absent. -/
theorem C8_empty_segment_counterexample :
    (bestDatesT rowsC2 0 3).length = 3 ∧
      (bestDatesT rowsC2 0 3).getD 1 (Tier.single, none) = (Tier.bin 1, none) ∧
      (lastMinuteCasesT rowsC2 0 3).all
        (fun x => !(x.price_tier == Tier.bin 1)) = true := by
  refine ⟨by with_unfolding_all decide, by with_unfolding_all decide,
    by with_unfolding_all decide⟩

/-- Witness for C5 on the KPI row of `rowsA` (no early sales, so the rate
is the empty sum over `max_stock`). -/
theorem C5_early_booking_join_witness :
    bookingRate120 rowsA
        (((dailyKpi rowsA).getD 0 defKpi).listing, ((dailyKpi rowsA).getD 0 defKpi).date) =
      (((((groupSold (filteredRows rowsA)
            (((dailyKpi rowsA).getD 0 defKpi).listing,
              ((dailyKpi rowsA).getD 0 defKpi).date)).filter
          (fun p => decide (p.1.created_at < p.1.date - 120))).map
            (fun p => p.2)).sum : Int) : Rat) /
        (((dailyKpi rowsA).getD 0 defKpi).max_stock : Rat) :=
  C5_early_booking_join rowsA _ (by with_unfolding_all decide)

end BookingCurves
